import Mathlib

/-!
Verification of the OpenSandbox control plane against its natural-language
specification.

The Python sources are shallowly embedded: pure functions become Lean
functions, `fastapi.HTTPException` raising becomes `Except PyError`,
Python dicts become association lists or typed structures, and the
`json.dumps` / `json.loads` pair is modelled by an executable renderer and
parser over a JSON value tree.
-/

set_option maxHeartbeats 1000000
set_option maxRecDepth 8000

namespace OpenSandbox

/-- Model of a `fastapi.HTTPException` carrying a `{code, message}` detail
(from src/server/src/services/validators.py).  Interpolated parts of the
source messages are dropped; the fixed text is kept. -/
structure PyError where
  status : Nat
  code : String
  msg : String
deriving DecidableEq, Repr

deriving instance DecidableEq for Except

/-! ## JSON values and the `json.dumps` / `json.loads` model

The egress helper serializes a pydantic model with `json.dumps`.  We model
JSON values as a mutual inductive family (values / array spines / object
spines) so that structural mutual induction is available, render them the
way `json.dumps` does with its defaults (`ensure_ascii=True`, separators
`", "` and `": "`), and parse them back with a fuel-indexed recursive
descent function modelling `json.loads` on this grammar. -/

/-- The opening brace character, written numerically. -/
def lbrace : Char := Char.ofNat 123

/-- The closing brace character, written numerically. -/
def rbrace : Char := Char.ofNat 125

mutual
/-- JSON values (the number-free fragment produced by the egress helper). -/
inductive JsonVal
  | str (s : String)
  | bool (b : Bool)
  | null
  | arr (elems : JsonArr)
  | obj (fields : JsonObj)

/-- Spine of a JSON array. -/
inductive JsonArr
  | nil
  | cons (hd : JsonVal) (tl : JsonArr)

/-- Spine of a JSON object: ordered key/value fields. -/
inductive JsonObj
  | nil
  | cons (key : String) (val : JsonVal) (tl : JsonObj)
end

/-- Lowercase hexadecimal digit, as produced by the `{0:04x}` formatting
inside Python json escaping. -/
def hexDigit (n : Nat) : Char :=
  if n < 10 then Char.ofNat (48 + n) else Char.ofNat (87 + n)

/-- The four hex digits of a `\uXXXX` escape for a code unit `n < 65536`. -/
def hex4 (n : Nat) : List Char :=
  [hexDigit (n / 4096 % 16), hexDigit (n / 256 % 16), hexDigit (n / 16 % 16), hexDigit (n % 16)]

/-- Escape one character exactly as `json.dumps` with `ensure_ascii=True`
does: short escapes for backslash, quote and the five named control
characters, `\uXXXX` for other characters outside `0x20 ..= 0x7e`
(as a surrogate pair when the code point exceeds `0xffff`), and the
character itself otherwise. -/
def escapeChar (c : Char) : List Char :=
  if c = '"' then ['\\', '"']
  else if c = '\\' then ['\\', '\\']
  else if c = Char.ofNat 8 then ['\\', 'b']
  else if c = Char.ofNat 9 then ['\\', 't']
  else if c = Char.ofNat 10 then ['\\', 'n']
  else if c = Char.ofNat 12 then ['\\', 'f']
  else if c = Char.ofNat 13 then ['\\', 'r']
  else if c.toNat < 32 ∨ 126 < c.toNat then
    if c.toNat < 65536 then
      '\\' :: 'u' :: hex4 c.toNat
    else
      ('\\' :: 'u' :: hex4 (55296 + (c.toNat - 65536) / 1024)) ++
        ('\\' :: 'u' :: hex4 (56320 + (c.toNat - 65536) % 1024))
  else [c]

/-- Render a string literal: quote, escaped characters, quote. -/
def encodeString (s : List Char) : List Char :=
  '"' :: (s.flatMap escapeChar ++ ['"'])

mutual
/-- Render a JSON value the way `json.dumps` does with default options
(item separator `", "`, key separator `": "`, no indent). -/
def renderV : JsonVal → List Char
  | .str s => encodeString s.data
  | .bool true => ['t', 'r', 'u', 'e']
  | .bool false => ['f', 'a', 'l', 's', 'e']
  | .null => ['n', 'u', 'l', 'l']
  | .arr .nil => ['[', ']']
  | .arr (.cons v t) => '[' :: (renderElems (.cons v t) ++ [']'])
  | .obj .nil => [lbrace, rbrace]
  | .obj (.cons k v t) => lbrace :: (renderMembers (.cons k v t) ++ [rbrace])

/-- Render the elements of a non-empty array, `", "`-separated. -/
def renderElems : JsonArr → List Char
  | .nil => []
  | .cons v .nil => renderV v
  | .cons v (.cons w t) => renderV v ++ (',' :: ' ' :: renderElems (.cons w t))

/-- Render the members of a non-empty object, `": "` between key and value
and `", "` between members. -/
def renderMembers : JsonObj → List Char
  | .nil => []
  | .cons k v .nil => encodeString k.data ++ (':' :: ' ' :: renderV v)
  | .cons k v (.cons k2 w t) =>
      encodeString k.data ++ (':' :: ' ' :: renderV v) ++
        (',' :: ' ' :: renderMembers (.cons k2 w t))
end

/-- Model of `json.dumps` on the value tree. -/
def jsonDumps (v : JsonVal) : String := String.mk (renderV v)

/-- JSON insignificant whitespace. -/
def isJsonWs (c : Char) : Bool :=
  c = ' ' ∨ c = Char.ofNat 9 ∨ c = Char.ofNat 10 ∨ c = Char.ofNat 13

/-- Drop leading JSON whitespace. -/
def skipWs : List Char → List Char
  | [] => []
  | c :: rest => if isJsonWs c then skipWs rest else c :: rest

/-- Numeric value of one hex digit, accepting both cases. -/
def parseHexDigit (c : Char) : Option Nat :=
  if 48 ≤ c.toNat ∧ c.toNat ≤ 57 then some (c.toNat - 48)
  else if 97 ≤ c.toNat ∧ c.toNat ≤ 102 then some (c.toNat - 87)
  else if 65 ≤ c.toNat ∧ c.toNat ≤ 70 then some (c.toNat - 55)
  else none

/-- Combine four hex digits into a code unit. -/
def parseHex4 (a b c d : Char) : Option Nat :=
  match parseHexDigit a, parseHexDigit b, parseHexDigit c, parseHexDigit d with
  | some x, some y, some z, some w => some (x * 4096 + y * 256 + z * 16 + w)
  | _, _, _, _ => none

/-- Decode a `\uXXXX` escape (after the `\u`), recombining surrogate pairs
the way `json.loads` does; lone surrogates are not representable as Lean
characters and are rejected. -/
def decodeUnicodeEscape : List Char → Option (Char × List Char)
  | a :: b :: c :: d :: rest =>
    match parseHex4 a b c d with
    | none => none
    | some n =>
      if 55296 ≤ n ∧ n < 56320 then
        match rest with
        | b1 :: b2 :: a2 :: b3 :: c3 :: d2 :: rest2 =>
          if b1 = '\\' ∧ b2 = 'u' then
            match parseHex4 a2 b3 c3 d2 with
            | none => none
            | some m =>
              if 56320 ≤ m ∧ m < 57344 then
                some (Char.ofNat (65536 + (n - 55296) * 1024 + (m - 56320)), rest2)
              else none
          else none
        | _ => none
      else if 56320 ≤ n ∧ n < 57344 then none
      else some (Char.ofNat n, rest)
  | _ => none

/-- Decode one backslash escape (after the backslash): the short escapes
recognized by `json.loads` plus `\uXXXX`. -/
def decodeEscape : List Char → Option (Char × List Char)
  | [] => none
  | e :: rest =>
    if e = '"' then some ('"', rest)
    else if e = '\\' then some ('\\', rest)
    else if e = '/' then some ('/', rest)
    else if e = 'b' then some (Char.ofNat 8, rest)
    else if e = 'f' then some (Char.ofNat 12, rest)
    else if e = 'n' then some (Char.ofNat 10, rest)
    else if e = 'r' then some (Char.ofNat 13, rest)
    else if e = 't' then some (Char.ofNat 9, rest)
    else if e = 'u' then decodeUnicodeEscape rest
    else none

/-- Parse the body of a JSON string literal (after the opening quote) up to
and including the closing quote, decoding escapes the way `json.loads`
does in strict mode.  Fuel-indexed; one unit of fuel is spent per decoded
character, so `input.length + 1` is always enough. -/
def parseStringBody : Nat → List Char → Option (List Char × List Char)
  | 0, _ => none
  | fuel + 1, l =>
    match l with
    | [] => none
    | c :: rest =>
      if c = '"' then some ([], rest)
      else if c = '\\' then
        match decodeEscape rest with
        | none => none
        | some (ch, rest2) => (parseStringBody fuel rest2).map (fun p => (ch :: p.1, p.2))
      else if c.toNat < 32 then none
      else (parseStringBody fuel rest).map (fun p => (c :: p.1, p.2))

mutual
/-- Fuel-indexed recursive descent for one JSON value, modelling
`json.loads` on the grammar produced by `renderV`. -/
def parseValue : Nat → List Char → Option (JsonVal × List Char)
  | 0, _ => none
  | fuel + 1, input =>
    match skipWs input with
    | [] => none
    | c :: rest =>
      if c = '"' then
        (parseStringBody (rest.length + 1) rest).map
          (fun p => (JsonVal.str (String.mk p.1), p.2))
      else if c = '[' then
        match skipWs rest with
        | [] => none
        | c2 :: rest2 =>
          if c2 = ']' then some (JsonVal.arr JsonArr.nil, rest2)
          else (parseElems fuel rest).map (fun p => (JsonVal.arr p.1, p.2))
      else if c = lbrace then
        match skipWs rest with
        | [] => none
        | c2 :: rest2 =>
          if c2 = rbrace then some (JsonVal.obj JsonObj.nil, rest2)
          else (parseMembers fuel rest).map (fun p => (JsonVal.obj p.1, p.2))
      else if c = 't' then
        match rest with
        | 'r' :: 'u' :: 'e' :: rest2 => some (JsonVal.bool true, rest2)
        | _ => none
      else if c = 'f' then
        match rest with
        | 'a' :: 'l' :: 's' :: 'e' :: rest2 => some (JsonVal.bool false, rest2)
        | _ => none
      else if c = 'n' then
        match rest with
        | 'u' :: 'l' :: 'l' :: rest2 => some (JsonVal.null, rest2)
        | _ => none
      else none

/-- Parse the elements of a non-empty array, consuming the closing `]`. -/
def parseElems : Nat → List Char → Option (JsonArr × List Char)
  | 0, _ => none
  | fuel + 1, input =>
    match parseValue fuel input with
    | none => none
    | some (v, rest) =>
      match skipWs rest with
      | [] => none
      | c :: rest2 =>
        if c = ']' then some (JsonArr.cons v JsonArr.nil, rest2)
        else if c = ',' then (parseElems fuel rest2).map (fun p => (JsonArr.cons v p.1, p.2))
        else none

/-- Parse the members of a non-empty object, consuming the closing brace. -/
def parseMembers : Nat → List Char → Option (JsonObj × List Char)
  | 0, _ => none
  | fuel + 1, input =>
    match skipWs input with
    | [] => none
    | c :: rest =>
      if c = '"' then
        match parseStringBody (rest.length + 1) rest with
        | none => none
        | some (k, rest2) =>
          match skipWs rest2 with
          | [] => none
          | c2 :: rest3 =>
            if c2 = ':' then
              match parseValue fuel rest3 with
              | none => none
              | some (v, rest4) =>
                match skipWs rest4 with
                | [] => none
                | c3 :: rest5 =>
                  if c3 = rbrace then some (JsonObj.cons (String.mk k) v JsonObj.nil, rest5)
                  else if c3 = ',' then
                    (parseMembers fuel rest5).map
                      (fun p => (JsonObj.cons (String.mk k) v p.1, p.2))
                  else none
            else none
      else none
end

/-- Model of `json.loads`: parse one value with enough fuel, then require
only trailing whitespace. -/
def jsonLoads (s : String) : Option JsonVal :=
  match parseValue (s.data.length + 1) s.data with
  | some (v, rest) => if (skipWs rest).isEmpty then some v else none
  | none => none

/-! ### Round trip of the JSON model -/

theorem skipWs_cons_of_not_ws {c : Char} (h : isJsonWs c = false) (l : List Char) :
    skipWs (c :: l) = c :: l := by
  simp [skipWs, h]

theorem parseHexDigit_hexDigit {n : Nat} (h : n < 16) :
    parseHexDigit (hexDigit n) = some n := by
  interval_cases n <;> decide

theorem parseHex4_hex4 {n : Nat} (h : n < 65536) :
    parseHex4 (hexDigit (n / 4096 % 16)) (hexDigit (n / 256 % 16))
      (hexDigit (n / 16 % 16)) (hexDigit (n % 16)) = some n := by
  rw [parseHex4, parseHexDigit_hexDigit (Nat.mod_lt _ (by omega)),
    parseHexDigit_hexDigit (Nat.mod_lt _ (by omega)),
    parseHexDigit_hexDigit (Nat.mod_lt _ (by omega)),
    parseHexDigit_hexDigit (Nat.mod_lt _ (by omega))]
  show some _ = some n
  congr 1
  omega

/-- The valid-scalar-value bounds carried by every Lean character. -/
theorem char_toNat_valid (c : Char) :
    c.toNat < 55296 ∨ (57344 ≤ c.toNat ∧ c.toNat < 1114112) := by
  have h := c.valid
  simp only [UInt32.isValidChar, Nat.isValidChar] at h
  exact h

/-- Every escape produced by `escapeChar` is decoded back to the original
character by `decodeEscape`, leaving the remainder untouched. -/
theorem decodeEscape_escapeChar (c : Char) (l : List Char)
    (h : c = '"' ∨ c = '\\' ∨ c.toNat < 32 ∨ 126 < c.toNat) :
    decodeEscape ((escapeChar c).tail ++ l) = some (c, l) := by
  by_cases h1 : c = '"'
  · subst h1; simp [escapeChar, decodeEscape]
  by_cases h2 : c = '\\'
  · subst h2; simp [escapeChar, decodeEscape]
  by_cases h3 : c = Char.ofNat 8
  · subst h3; simp [escapeChar, decodeEscape]
  by_cases h4 : c = Char.ofNat 9
  · subst h4; simp [escapeChar, decodeEscape]
  by_cases h5 : c = Char.ofNat 10
  · subst h5; simp [escapeChar, decodeEscape]
  by_cases h6 : c = Char.ofNat 12
  · subst h6; simp [escapeChar, decodeEscape]
  by_cases h7 : c = Char.ofNat 13
  · subst h7; simp [escapeChar, decodeEscape]
  have h8 : c.toNat < 32 ∨ 126 < c.toNat := by
    rcases h with h | h | h | h
    · exact absurd h h1
    · exact absurd h h2
    · exact Or.inl h
    · exact Or.inr h
  by_cases h9 : c.toNat < 65536
  · -- single \uXXXX escape
    rw [escapeChar, if_neg h1, if_neg h2, if_neg h3, if_neg h4, if_neg h5, if_neg h6,
      if_neg h7, if_pos h8, if_pos h9]
    have hv := char_toNat_valid c
    have ha : ¬ (55296 ≤ c.toNat ∧ c.toNat < 56320) := by omega
    have hb : ¬ (56320 ≤ c.toNat ∧ c.toNat < 57344) := by omega
    simp only [hex4, List.tail_cons, List.cons_append, List.nil_append]
    simp [decodeEscape, decodeUnicodeEscape, parseHex4_hex4 h9, ha, hb]
  · -- surrogate pair escape
    rw [escapeChar, if_neg h1, if_neg h2, if_neg h3, if_neg h4, if_neg h5, if_neg h6,
      if_neg h7, if_pos h8, if_neg h9]
    have hv := char_toNat_valid c
    have h65 : 65536 ≤ c.toNat := by omega
    have hmod : (c.toNat - 65536) % 1024 < 1024 := Nat.mod_lt _ (by omega)
    have hhi : 55296 + (c.toNat - 65536) / 1024 < 65536 := by omega
    have hlo : 56320 + (c.toNat - 65536) % 1024 < 65536 := by omega
    have hhiS : 55296 ≤ 55296 + (c.toNat - 65536) / 1024 ∧
        55296 + (c.toNat - 65536) / 1024 < 56320 := by omega
    have hloS : 56320 ≤ 56320 + (c.toNat - 65536) % 1024 ∧
        56320 + (c.toNat - 65536) % 1024 < 57344 := by omega
    simp only [hex4, List.cons_append, List.tail_cons, List.nil_append,
      List.append_assoc]
    rw [decodeEscape]
    rw [if_neg (by decide), if_neg (by decide), if_neg (by decide), if_neg (by decide),
      if_neg (by decide), if_neg (by decide), if_neg (by decide), if_neg (by decide),
      if_pos rfl]
    rw [decodeUnicodeEscape]
    rw [parseHex4_hex4 hhi]
    simp only [if_pos hhiS]
    simp only [and_self, if_true]
    rw [parseHex4_hex4 hlo]
    simp only [if_pos hloS]
    rw [show 65536 + (55296 + (c.toNat - 65536) / 1024 - 55296) * 1024 +
        (56320 + (c.toNat - 65536) % 1024 - 56320) = c.toNat from by omega,
      Char.ofNat_toNat]

/-- An escape sequence begins with a backslash whenever the character needed
escaping at all. -/
theorem escapeChar_head (c : Char)
    (h : c = '"' ∨ c = '\\' ∨ c.toNat < 32 ∨ 126 < c.toNat) :
    escapeChar c = '\\' :: (escapeChar c).tail := by
  rw [escapeChar]
  split_ifs with h1 h2 h3 h4 h5 h6 h7 h8 h9
  any_goals rfl
  exfalso
  rcases h with h | h | h | h
  · exact h1 h
  · exact h2 h
  · exact h8 (Or.inl h)
  · exact h8 (Or.inr h)

/-- A plain character is left alone by `escapeChar`. -/
theorem escapeChar_plain (c : Char)
    (h : ¬ (c = '"' ∨ c = '\\' ∨ c.toNat < 32 ∨ 126 < c.toNat)) :
    escapeChar c = [c] := by
  have h1 : ¬ c = '"' := fun hc => h (Or.inl hc)
  have h2 : ¬ c = '\\' := fun hc => h (Or.inr (Or.inl hc))
  have hn : 32 ≤ c.toNat ∧ c.toNat ≤ 126 := by
    by_contra hc
    exact h (Or.inr (Or.inr (by omega)))
  have hc8 : ¬ c = Char.ofNat 8 := by
    intro hc; rw [hc] at hn; revert hn; decide
  have hc9 : ¬ c = Char.ofNat 9 := by
    intro hc; rw [hc] at hn; revert hn; decide
  have hc10 : ¬ c = Char.ofNat 10 := by
    intro hc; rw [hc] at hn; revert hn; decide
  have hc12 : ¬ c = Char.ofNat 12 := by
    intro hc; rw [hc] at hn; revert hn; decide
  have hc13 : ¬ c = Char.ofNat 13 := by
    intro hc; rw [hc] at hn; revert hn; decide
  rw [escapeChar, if_neg h1, if_neg h2, if_neg hc8, if_neg hc9, if_neg hc10,
    if_neg hc12, if_neg hc13, if_neg (by omega)]

/-- Decoding inverts escaping: an escaped string body followed by the closing
quote parses back to the original characters, given enough fuel. -/
theorem parseStringBody_escape (s : List Char) :
    ∀ (fuel : Nat) (rest : List Char), (s.flatMap escapeChar).length < fuel →
    parseStringBody fuel (s.flatMap escapeChar ++ ('"' :: rest)) = some (s, rest) := by
  induction s with
  | nil =>
    intro fuel rest hf
    match fuel, hf with
    | fuel + 1, _ => simp [parseStringBody]
  | cons c s ih =>
    intro fuel rest hf
    have hlen : 1 ≤ (escapeChar c).length := by
      rw [escapeChar]; split_ifs <;> simp [hex4]
    rw [List.flatMap_cons, List.length_append] at hf
    match fuel, hf with
    | fuel + 1, hf =>
      rw [List.flatMap_cons, List.append_assoc]
      by_cases h : c = '"' ∨ c = '\\' ∨ c.toNat < 32 ∨ 126 < c.toNat
      · rw [escapeChar_head c h, List.cons_append, parseStringBody]
        rw [if_neg (by decide), if_pos rfl]
        simp [decodeEscape_escapeChar c _ h, ih fuel rest (by omega)]
      · rw [escapeChar_plain c h, List.singleton_append, parseStringBody]
        have h1 : ¬ c = '"' := fun hc => h (Or.inl hc)
        have h2 : ¬ c = '\\' := fun hc => h (Or.inr (Or.inl hc))
        have h3 : ¬ c.toNat < 32 := fun hc => h (Or.inr (Or.inr (Or.inl hc)))
        rw [if_neg h1, if_neg h2, if_neg h3]
        rw [ih fuel rest (by omega)]
        rfl

mutual
/-- Fuel needed by `parseValue` to parse the rendering of a value. -/
def needV : JsonVal → Nat
  | .str _ => 1
  | .bool _ => 1
  | .null => 1
  | .arr .nil => 1
  | .arr (.cons v t) => 1 + needA (.cons v t)
  | .obj .nil => 1
  | .obj (.cons k v t) => 1 + needO (.cons k v t)

/-- Fuel needed by `parseElems` on a rendered non-empty array spine. -/
def needA : JsonArr → Nat
  | .nil => 0
  | .cons v t => 1 + max (needV v) (needA t)

/-- Fuel needed by `parseMembers` on a rendered non-empty object spine. -/
def needO : JsonObj → Nat
  | .nil => 0
  | .cons _ v t => 1 + max (needV v) (needO t)
end

theorem needV_pos (v : JsonVal) : 1 ≤ needV v := by
  cases v with
  | arr a => cases a <;> simp [needV]
  | obj o => cases o <;> simp [needV]
  | _ => simp [needV]

/-- Every rendered value starts with a distinctive non-whitespace character. -/
theorem renderV_head (v : JsonVal) :
    ∃ hd tl, renderV v = hd :: tl ∧ isJsonWs hd = false ∧ hd ≠ ']' ∧ hd ≠ rbrace ∧
      hd ≠ ',' ∧ hd ≠ ':' := by
  cases v with
  | str s =>
    exact ⟨'"', s.data.flatMap escapeChar ++ ['"'], by simp [renderV, encodeString],
      by decide, by decide, by decide, by decide, by decide⟩
  | bool b =>
    cases b
    · exact ⟨'f', ['a', 'l', 's', 'e'], by simp [renderV],
        by decide, by decide, by decide, by decide, by decide⟩
    · exact ⟨'t', ['r', 'u', 'e'], by simp [renderV],
        by decide, by decide, by decide, by decide, by decide⟩
  | null =>
    exact ⟨'n', ['u', 'l', 'l'], by simp [renderV],
      by decide, by decide, by decide, by decide, by decide⟩
  | arr a =>
    cases a with
    | nil =>
      exact ⟨'[', [']'], by simp [renderV],
        by decide, by decide, by decide, by decide, by decide⟩
    | cons v t =>
      exact ⟨'[', renderElems (.cons v t) ++ [']'], by simp [renderV],
        by decide, by decide, by decide, by decide, by decide⟩
  | obj o =>
    cases o with
    | nil =>
      exact ⟨lbrace, [rbrace], by simp [renderV],
        by decide, by decide, by decide, by decide, by decide⟩
    | cons k v t =>
      exact ⟨lbrace, renderMembers (.cons k v t) ++ [rbrace], by simp [renderV],
        by decide, by decide, by decide, by decide, by decide⟩

/-- A non-empty array spine renders as its head value followed by more. -/
theorem renderElems_cons (v : JsonVal) (t : JsonArr) :
    ∃ tl, renderElems (.cons v t) = renderV v ++ tl := by
  cases t with
  | nil => exact ⟨[], by simp [renderElems]⟩
  | cons w t2 =>
    exact ⟨',' :: ' ' :: renderElems (.cons w t2), by simp [renderElems]⟩

/-- A non-empty object spine renders as its first encoded key followed by more. -/
theorem renderMembers_cons (k : String) (v : JsonVal) (t : JsonObj) :
    ∃ tl, renderMembers (.cons k v t) = encodeString k.data ++ tl := by
  cases t with
  | nil => exact ⟨':' :: ' ' :: renderV v, by simp [renderMembers]⟩
  | cons k2 w t2 =>
    exact ⟨(':' :: ' ' :: renderV v) ++ (',' :: ' ' :: renderMembers (.cons k2 w t2)),
      by simp [renderMembers]⟩

theorem skipWs_renderV_append (v : JsonVal) (l : List Char) :
    skipWs (renderV v ++ l) = renderV v ++ l := by
  obtain ⟨hd, tl, hhd, hws, _, _, _, _⟩ := renderV_head v
  rw [hhd, List.cons_append, skipWs_cons_of_not_ws hws]

theorem skipWs_renderElems_append (v : JsonVal) (t : JsonArr) (l : List Char) :
    skipWs (renderElems (.cons v t) ++ l) = renderElems (.cons v t) ++ l := by
  obtain ⟨tl, htl⟩ := renderElems_cons v t
  rw [htl, List.append_assoc, skipWs_renderV_append]

theorem skipWs_renderMembers_append (k : String) (v : JsonVal) (t : JsonObj) (l : List Char) :
    skipWs (renderMembers (.cons k v t) ++ l) = renderMembers (.cons k v t) ++ l := by
  obtain ⟨tl, htl⟩ := renderMembers_cons k v t
  rw [htl, List.append_assoc, encodeString, List.cons_append,
    skipWs_cons_of_not_ws (by decide)]

theorem skipWs_space (l : List Char) : skipWs (' ' :: l) = skipWs l := by
  simp [skipWs, isJsonWs]

/-- Parsing inverts rendering: with enough fuel, `parseValue` consumes exactly
the rendering of a value (and similarly for non-empty array and object
spines), returning the value and the untouched remainder. -/
theorem parse_render_all (fuel : Nat) :
    (∀ (v : JsonVal) (input restv : List Char), skipWs input = renderV v ++ restv →
      needV v ≤ fuel → parseValue fuel input = some (v, restv)) ∧
    (∀ (v : JsonVal) (t : JsonArr) (input restv : List Char),
      skipWs input = renderElems (.cons v t) ++ (']' :: restv) →
      needA (.cons v t) ≤ fuel → parseElems fuel input = some (.cons v t, restv)) ∧
    (∀ (k : String) (v : JsonVal) (t : JsonObj) (input restv : List Char),
      skipWs input = renderMembers (.cons k v t) ++ (rbrace :: restv) →
      needO (.cons k v t) ≤ fuel → parseMembers fuel input = some (.cons k v t, restv)) := by
  induction fuel with
  | zero =>
    refine ⟨?_, ?_, ?_⟩
    · intro v input restv _ hn
      have := needV_pos v
      omega
    · intro v t input restv _ hn
      simp [needA] at hn
    · intro k v t input restv _ hn
      simp [needO] at hn
  | succ fuel ih =>
    obtain ⟨ihV, ihA, ihO⟩ := ih
    refine ⟨?_, ?_, ?_⟩
    · -- parseValue on a rendered value
      intro v input restv hs hn
      cases v with
      | str s =>
        simp only [renderV, encodeString, List.cons_append, List.append_assoc,
          List.singleton_append, List.nil_append] at hs
        rw [parseValue, hs]
        have hps := parseStringBody_escape s.data
          ((s.data.flatMap escapeChar ++ ('"' :: restv)).length + 1) restv
          (by simp [List.length_append]; omega)
        simp only [hps, Option.map_some, if_true]
        rfl
      | bool b =>
        cases b with
        | false =>
          simp only [renderV, List.cons_append, List.nil_append] at hs
          rw [parseValue, hs]
          simp [lbrace]
        | true =>
          simp only [renderV, List.cons_append, List.nil_append] at hs
          rw [parseValue, hs]
          simp [lbrace]
      | null =>
        simp only [renderV, List.cons_append, List.nil_append] at hs
        rw [parseValue, hs]
        simp [lbrace]
      | arr a =>
        cases a with
        | nil =>
          simp only [renderV, List.cons_append, List.nil_append] at hs
          rw [parseValue, hs]
          simp [lbrace, skipWs, isJsonWs]
        | cons v t =>
          simp only [renderV, List.cons_append, List.append_assoc,
            List.singleton_append, List.nil_append] at hs
          obtain ⟨tl, htl⟩ := renderElems_cons v t
          obtain ⟨hd, tlv, hhd, hws, hne1, hne2, hne3, hne4⟩ := renderV_head v
          have hcons : renderElems (.cons v t) ++ (']' :: restv) =
              hd :: (tlv ++ (tl ++ (']' :: restv))) := by
            rw [htl, hhd]
            simp
          rw [hcons] at hs
          have hn2 : needA (.cons v t) ≤ fuel := by
            simp only [needV] at hn; omega
          have hskip2 : skipWs (hd :: (tlv ++ (tl ++ (']' :: restv)))) =
              hd :: (tlv ++ (tl ++ (']' :: restv))) :=
            skipWs_cons_of_not_ws hws _
          have hae := ihA v t (hd :: (tlv ++ (tl ++ (']' :: restv)))) restv
            (by rw [hskip2, ← hcons]) hn2
          rw [parseValue, hs]
          simp [lbrace, hskip2, hne1, hae]
      | obj o =>
        cases o with
        | nil =>
          simp only [renderV, List.cons_append, List.nil_append] at hs
          rw [parseValue, hs]
          simp [lbrace, rbrace, skipWs, isJsonWs]
        | cons k v t =>
          simp only [renderV, List.cons_append, List.append_assoc,
            List.singleton_append, List.nil_append] at hs
          obtain ⟨tl, htl⟩ := renderMembers_cons k v t
          have hcons : renderMembers (.cons k v t) ++ (rbrace :: restv) =
              '"' :: (k.data.flatMap escapeChar ++ ('"' :: (tl ++ (rbrace :: restv)))) := by
            rw [htl, encodeString]
            simp
          rw [hcons] at hs
          have hn2 : needO (.cons k v t) ≤ fuel := by
            simp only [needV] at hn; omega
          have hskip2 : skipWs ('"' :: (k.data.flatMap escapeChar ++
              ('"' :: (tl ++ (rbrace :: restv))))) =
              '"' :: (k.data.flatMap escapeChar ++ ('"' :: (tl ++ (rbrace :: restv)))) :=
            skipWs_cons_of_not_ws (by decide) _
          have hoe := ihO k v t ('"' :: (k.data.flatMap escapeChar ++
              ('"' :: (tl ++ (rbrace :: restv))))) restv (by rw [hskip2, ← hcons]) hn2
          rw [parseValue, hs]
          simp [lbrace, hskip2, hoe,
            show (('"' : Char) = rbrace) = False from by simp [rbrace]]
    · -- parseElems on a rendered non-empty array spine
      intro v t input restv hs hn
      cases t with
      | nil =>
        simp only [renderElems] at hs
        have hnv : needV v ≤ fuel := by
          simp only [needA] at hn; omega
        have hv := ihV v input (']' :: restv) hs hnv
        rw [parseElems, hv]
        simp [skipWs_cons_of_not_ws (show isJsonWs ']' = false from by decide)]
      | cons w t2 =>
        simp only [renderElems, List.cons_append, List.append_assoc] at hs
        have hn2 := hn
        simp only [needA] at hn2
        have hnv : needV v ≤ fuel := by omega
        have hna : needA (.cons w t2) ≤ fuel := by
          simp only [needA]; omega
        have hv := ihV v input
          (',' :: ' ' :: (renderElems (.cons w t2) ++ (']' :: restv))) hs hnv
        have hrec := ihA w t2 (' ' :: (renderElems (.cons w t2) ++ (']' :: restv))) restv
          (by rw [skipWs_space, skipWs_renderElems_append]) hna
        rw [parseElems, hv]
        simp [skipWs_cons_of_not_ws (show isJsonWs ',' = false from by decide), hrec]
    · -- parseMembers on a rendered non-empty object spine
      intro k v t input restv hs hn
      cases t with
      | nil =>
        simp only [renderMembers, encodeString, List.cons_append, List.append_assoc,
          List.singleton_append, List.nil_append] at hs
        have hnv : needV v ≤ fuel := by
          simp only [needO] at hn; omega
        have hps := parseStringBody_escape k.data
          ((k.data.flatMap escapeChar ++
            ('"' :: (':' :: ' ' :: (renderV v ++ (rbrace :: restv))))).length + 1)
          (':' :: ' ' :: (renderV v ++ (rbrace :: restv)))
          (by simp [List.length_append]; omega)
        have hv := ihV v (' ' :: (renderV v ++ (rbrace :: restv))) (rbrace :: restv)
          (by rw [skipWs_space, skipWs_renderV_append]) hnv
        have hsk1 : skipWs (':' :: ' ' :: (renderV v ++ (rbrace :: restv))) =
            ':' :: ' ' :: (renderV v ++ (rbrace :: restv)) :=
          skipWs_cons_of_not_ws (by decide) _
        have hskr : skipWs (rbrace :: restv) = rbrace :: restv :=
          skipWs_cons_of_not_ws (by decide) _
        rw [parseMembers, hs]
        simp only [hps, hv, hsk1, hskr, Option.map_some, if_true, if_false,
          eq_self_iff_true]
      | cons k2 w t2 =>
        simp only [renderMembers, encodeString, List.cons_append, List.append_assoc,
          List.singleton_append, List.nil_append] at hs
        have hn2 := hn
        simp only [needO] at hn2
        have hnv : needV v ≤ fuel := by omega
        have hno : needO (.cons k2 w t2) ≤ fuel := by
          simp only [needO]; omega
        have hps := parseStringBody_escape k.data
          ((k.data.flatMap escapeChar ++
            ('"' :: (':' :: ' ' :: (renderV v ++
              (',' :: ' ' :: (renderMembers (.cons k2 w t2) ++ (rbrace :: restv))))))).length + 1)
          (':' :: ' ' :: (renderV v ++
            (',' :: ' ' :: (renderMembers (.cons k2 w t2) ++ (rbrace :: restv)))))
          (by simp [List.length_append]; omega)
        have hv := ihV v
          (' ' :: (renderV v ++
            (',' :: ' ' :: (renderMembers (.cons k2 w t2) ++ (rbrace :: restv)))))
          (',' :: ' ' :: (renderMembers (.cons k2 w t2) ++ (rbrace :: restv)))
          (by rw [skipWs_space, skipWs_renderV_append]) hnv
        have hrec := ihO k2 w t2
          (' ' :: (renderMembers (.cons k2 w t2) ++ (rbrace :: restv))) restv
          (by rw [skipWs_space, skipWs_renderMembers_append]) hno
        have hsk1 : skipWs (':' :: ' ' :: (renderV v ++
            (',' :: ' ' :: (renderMembers (.cons k2 w t2) ++ (rbrace :: restv))))) =
            ':' :: ' ' :: (renderV v ++
              (',' :: ' ' :: (renderMembers (.cons k2 w t2) ++ (rbrace :: restv)))) :=
          skipWs_cons_of_not_ws (by decide) _
        have hsk2 : skipWs (',' :: ' ' :: (renderMembers (.cons k2 w t2) ++
            (rbrace :: restv))) =
            ',' :: ' ' :: (renderMembers (.cons k2 w t2) ++ (rbrace :: restv)) :=
          skipWs_cons_of_not_ws (by decide) _
        rw [parseMembers, hs]
        simp only [hps, hv, hrec, hsk1, hsk2, Option.map_some, if_true, if_false,
          eq_self_iff_true,
          show ((',' : Char) = rbrace) = False from by simp [rbrace]]
        rfl

mutual
/-- The fuel needed for a value is bounded by the length of its rendering. -/
theorem needV_le_length : ∀ v : JsonVal, needV v ≤ (renderV v).length
  | .str s => by simp [needV, renderV, encodeString]
  | .bool true => by simp [needV, renderV]
  | .bool false => by simp [needV, renderV]
  | .null => by simp [needV, renderV]
  | .arr .nil => by simp [needV, renderV]
  | .arr (.cons v t) => by
    have h := needA_le_length v t
    simp only [needV, renderV, List.length_cons, List.length_append]
    omega
  | .obj .nil => by simp [needV, renderV]
  | .obj (.cons k v t) => by
    have h := needO_le_length k v t
    simp only [needV, renderV, List.length_cons, List.length_append]
    omega
termination_by v => sizeOf v

/-- The fuel needed for a non-empty array spine is bounded by one more than
the length of its rendering. -/
theorem needA_le_length : ∀ (v : JsonVal) (t : JsonArr),
    needA (.cons v t) ≤ 1 + (renderElems (.cons v t)).length
  | v, .nil => by
    have h := needV_le_length v
    simp only [needA, renderElems, needA]
    omega
  | v, .cons w t2 => by
    have h1 := needV_le_length v
    have h2 := needA_le_length w t2
    simp only [needA] at h2
    simp only [needA, renderElems, List.length_append, List.length_cons]
    omega
termination_by v t => 1 + sizeOf v + sizeOf t

/-- The fuel needed for a non-empty object spine is bounded by one more than
the length of its rendering. -/
theorem needO_le_length : ∀ (k : String) (v : JsonVal) (t : JsonObj),
    needO (.cons k v t) ≤ 1 + (renderMembers (.cons k v t)).length
  | _, v, .nil => by
    have h := needV_le_length v
    simp only [needO, renderMembers, needO, List.length_append, List.length_cons]
    omega
  | k, v, .cons k2 w t2 => by
    have h1 := needV_le_length v
    have h2 := needO_le_length k2 w t2
    simp only [needO] at h2
    simp only [needO, renderMembers, List.length_append, List.length_cons]
    omega
termination_by _k v t => 1 + sizeOf v + sizeOf t
end

/-- The model of `json.loads` inverts the model of `json.dumps` on every
JSON value of the grammar. -/
theorem jsonLoads_jsonDumps (v : JsonVal) : jsonLoads (jsonDumps v) = some v := by
  have hs : skipWs (renderV v) = renderV v ++ [] := by
    rw [List.append_nil]
    have h := skipWs_renderV_append v []
    rwa [List.append_nil] at h
  have hn : needV v ≤ (renderV v).length + 1 := by
    have := needV_le_length v
    omega
  have hp := (parse_render_all ((renderV v).length + 1)).1 v (renderV v) [] hs hn
  rw [jsonLoads, jsonDumps]
  have hd : (String.mk (renderV v)).data = renderV v := rfl
  rw [hd, hp]
  simp [skipWs]

/-! ## Egress sidecar helpers
(src/server/src/services/k8s/egress_helper.py) -/

/-- Environment variable name for passing the network policy to the egress
sidecar (`EGRESS_RULES_ENV` in egress_helper.py). -/
def EGRESS_RULES_ENV : String := "OPENSANDBOX_EGRESS_RULES"

/-- Modelled from the spec: the `NetworkRule` pydantic model lives in
`src/api/schema.py`, which is not under src/.  A rule is an
`{action, target}` pair of strings, `target` a hostname pattern. -/
structure NetworkRule where
  action : String
  target : String
deriving DecidableEq

/-- Modelled from the spec: the `NetworkPolicy` pydantic model lives in
`src/api/schema.py`, which is not under src/.  It has an optional
`default_action` and an optional ordered list of rules; pydantic
`model_dump(by_alias=True, exclude_none=True)` renames `default_action`
to `defaultAction` and omits fields that are `None`. -/
structure NetworkPolicy where
  default_action : Option String
  egress : Option (List NetworkRule)
deriving DecidableEq

/-- JSON object of one serialized rule. -/
def NetworkRule.dumpJson (r : NetworkRule) : JsonVal :=
  .obj (.cons "action" (.str r.action) (.cons "target" (.str r.target) .nil))

/-- JSON array spine of a serialized rule list. -/
def egressArr : List NetworkRule → JsonArr
  | [] => .nil
  | r :: rs => .cons r.dumpJson (egressArr rs)

/-- Object spine from an association list. -/
def objOf : List (String × JsonVal) → JsonObj
  | [] => .nil
  | (k, v) :: t => .cons k v (objOf t)

/-- Model of `network_policy.model_dump(by_alias=True, exclude_none=True)`:
camelCase field names in declaration order, `None` fields omitted. -/
def NetworkPolicy.modelDump (p : NetworkPolicy) : List (String × JsonVal) :=
  (match p.default_action with
   | none => []
   | some a => [("defaultAction", JsonVal.str a)]) ++
  (match p.egress with
   | none => []
   | some rs => [("egress", JsonVal.arr (egressArr rs))])

/-- The `policy_payload` string of `build_egress_sidecar_container`:
`json.dumps` of the dumped policy. -/
def policyPayload (p : NetworkPolicy) : String :=
  jsonDumps (.obj (objOf p.modelDump))

/-- One `{"name": ..., "value": ...}` entry of a container `env` list. -/
structure EnvVar where
  name : String
  value : String
deriving DecidableEq

/-- Values appearing in Kubernetes securityContext dictionaries. -/
inductive K8sVal
  | str (s : String)
  | list (xs : List K8sVal)
  | obj (fields : List (String × K8sVal))

/-- The container dict built by `build_egress_sidecar_container`, with its
fixed keys name / image / env / securityContext. -/
structure ContainerSpec where
  name : String
  image : String
  env : List EnvVar
  securityContext : List (String × K8sVal)

/-- Embeds `_build_security_context_for_egress`:
`{"capabilities": {"add": ["NET_ADMIN"]}}`. -/
def build_security_context_for_egress : List (String × K8sVal) :=
  [("capabilities", .obj [("add", .list [.str "NET_ADMIN"])])]

/-- Embeds `build_egress_sidecar_container` of egress_helper.py. -/
def build_egress_sidecar_container (egress_image : String)
    (network_policy : NetworkPolicy) : ContainerSpec :=
  { name := "egress"
    image := egress_image
    env := [{ name := EGRESS_RULES_ENV, value := policyPayload network_policy }]
    securityContext := build_security_context_for_egress }

/-- Embeds `build_security_context_for_main_container` of egress_helper.py:
drop NET_ADMIN when a network policy is enabled, empty dict otherwise. -/
def build_security_context_for_main_container (has_network_policy : Bool) :
    List (String × K8sVal) :=
  if has_network_policy then
    [("capabilities", .obj [("drop", .list [.str "NET_ADMIN"])])]
  else []

/-- One `{"name": ..., "value": ...}` sysctl entry. -/
structure Sysctl where
  name : String
  value : String
deriving DecidableEq

/-- Embeds `build_ipv6_disable_sysctls` of egress_helper.py. -/
def build_ipv6_disable_sysctls : List Sysctl :=
  [⟨"net.ipv6.conf.all.disable_ipv6", "1"⟩,
   ⟨"net.ipv6.conf.default.disable_ipv6", "1"⟩,
   ⟨"net.ipv6.conf.lo.disable_ipv6", "1"⟩]

/-- First value bound to a key in an object spine. -/
def JsonObj.lookup (k : String) : JsonObj → Option JsonVal
  | .nil => none
  | .cons k2 v t => if k2 = k then some v else JsonObj.lookup k t

/-- Keys of an object spine, in order. -/
def JsonObj.keys : JsonObj → List String
  | .nil => []
  | .cons k _ t => k :: JsonObj.keys t

/-- C1: for every `NetworkPolicy p` and egress image, the container built by
`build_egress_sidecar_container` has exactly one environment variable, named
`OPENSANDBOX_EGRESS_RULES`; its value is valid JSON, and parsing it yields
an object whose `defaultAction` field and `egress` list of
`{action, target}` entries equal the corresponding fields of `p` under
camelCase names, fields of `p` that are `None` being omitted rather than
serialized as null. -/
theorem egress_env_var_json_roundtrips (egress_image : String) (p : NetworkPolicy) :
    (build_egress_sidecar_container egress_image p).env =
      [{ name := EGRESS_RULES_ENV, value := policyPayload p }] ∧
    EGRESS_RULES_ENV = "OPENSANDBOX_EGRESS_RULES" ∧
    ∃ fields : JsonObj,
      jsonLoads (policyPayload p) = some (.obj fields) ∧
      fields.lookup "defaultAction" = p.default_action.map JsonVal.str ∧
      fields.lookup "egress" = p.egress.map (fun rs => JsonVal.arr (egressArr rs)) ∧
      fields.keys =
        (match p.default_action with | none => [] | some _ => ["defaultAction"]) ++
        (match p.egress with | none => [] | some _ => ["egress"]) := by
  refine ⟨rfl, rfl, objOf p.modelDump, jsonLoads_jsonDumps _, ?_, ?_, ?_⟩
  · cases hda : p.default_action <;> cases he : p.egress <;>
      simp [NetworkPolicy.modelDump, objOf, JsonObj.lookup, hda, he]
  · cases hda : p.default_action <;> cases he : p.egress <;>
      simp [NetworkPolicy.modelDump, objOf, JsonObj.lookup, hda, he]
  · cases hda : p.default_action <;> cases he : p.egress <;>
      simp [NetworkPolicy.modelDump, objOf, JsonObj.keys, hda, he]

/-- C2: when a network policy is set only the egress sidecar holds
NET_ADMIN and IPv6 is disabled pod-wide: the sidecar container is named
`egress` and its securityContext adds NET_ADMIN;
`build_security_context_for_main_container` drops NET_ADMIN when a policy
is present and returns the empty dict otherwise; and
`build_ipv6_disable_sysctls` returns exactly the three
`net.ipv6.conf.*.disable_ipv6` sysctls with value "1". -/
theorem egress_capability_split_and_ipv6_sysctls (egress_image : String)
    (p : NetworkPolicy) :
    (build_egress_sidecar_container egress_image p).name = "egress" ∧
    (build_egress_sidecar_container egress_image p).securityContext =
      [("capabilities", K8sVal.obj [("add", K8sVal.list [K8sVal.str "NET_ADMIN"])])] ∧
    build_security_context_for_main_container true =
      [("capabilities", K8sVal.obj [("drop", K8sVal.list [K8sVal.str "NET_ADMIN"])])] ∧
    build_security_context_for_main_container false = [] ∧
    build_ipv6_disable_sysctls =
      [⟨"net.ipv6.conf.all.disable_ipv6", "1"⟩,
       ⟨"net.ipv6.conf.default.disable_ipv6", "1"⟩,
       ⟨"net.ipv6.conf.lo.disable_ipv6", "1"⟩] :=
  ⟨rfl, rfl, rfl, rfl, rfl⟩

/-! ## Validators (src/server/src/services/validators.py) -/

/-- The error raised by `ensure_valid_port` for an out-of-range port. -/
def invalidPortError : PyError :=
  { status := 400, code := "INVALID_PORT", msg := "Port must be between 1 and 65535." }

/-- Embeds `ensure_valid_port`: reject ports outside `1..65535`. -/
def ensure_valid_port (port : Int) : Except PyError Unit :=
  if port < 1 ∨ 65535 < port then .error invalidPortError else .ok ()

/-- C8: `ensure_valid_port p` returns normally iff `1 ≤ p ≤ 65535`, and any
`p` outside that inclusive range raises `INVALID_PORT` with HTTP 400. -/
theorem ensure_valid_port_iff (port : Int) :
    (ensure_valid_port port = .ok () ↔ 1 ≤ port ∧ port ≤ 65535) ∧
    ((port < 1 ∨ 65535 < port) →
      ensure_valid_port port = .error invalidPortError ∧
      invalidPortError.code = "INVALID_PORT" ∧ invalidPortError.status = 400) := by
  refine ⟨⟨fun h => ?_, fun h => ?_⟩, fun h => ⟨?_, rfl, rfl⟩⟩
  · by_cases hc : port < 1 ∨ 65535 < port
    · simp [ensure_valid_port, hc] at h
    · omega
  · simp [ensure_valid_port, show ¬ (port < 1 ∨ 65535 < port) from by omega]
  · simp [ensure_valid_port, h]

/-- Witness for `ensure_valid_port_iff` at port 80. -/
theorem ensure_valid_port_iff_witness :
    ensure_valid_port 80 = .ok () ∧ ensure_valid_port 0 = .error invalidPortError :=
  ⟨((ensure_valid_port_iff 80).1).2 (by decide),
   ((ensure_valid_port_iff 0).2 (by decide)).1⟩

/-- Model of a Python `datetime`: the wall-clock reading in microseconds
since the epoch together with the `utcoffset` in microseconds for aware
values (`none` for naive ones).  `replace(tzinfo=timezone.utc)` keeps the
wall clock and sets offset `0`; `astimezone(timezone.utc)` converts the
wall clock to the UTC instant `wall - off`; comparison of aware datetimes
compares instants. -/
structure PyDatetime where
  wall : Int
  off : Option Int
deriving DecidableEq

/-- The UTC instant `ensure_future_expiration` normalizes a datetime to:
a naive value is interpreted as UTC, an aware one is converted. -/
def normInstant (d : PyDatetime) : Int :=
  match d.off with
  | none => d.wall
  | some o => d.wall - o

/-- The error raised by `ensure_future_expiration` for non-future times. -/
def invalidExpirationError : PyError :=
  { status := 400, code := "INVALID_EXPIRATION",
    msg := "New expiration time must be in the future." }

/-- Embeds `ensure_future_expiration`; `now` stands for the instant
`datetime.now(timezone.utc)` reads when the comparison happens. -/
def ensure_future_expiration (now : Int) (expires_at : PyDatetime) :
    Except PyError PyDatetime :=
  let normalized : PyDatetime :=
    match expires_at.off with
    | none => { wall := expires_at.wall, off := some 0 }
    | some o => { wall := expires_at.wall - o, off := some 0 }
  if normalized.wall ≤ now then .error invalidExpirationError
  else .ok normalized

/-- C3: `ensure_future_expiration` first normalizes to UTC — a naive value
is interpreted as UTC, an aware one is converted preserving the instant —
then raises `INVALID_EXPIRATION` with HTTP 400 when the normalized value is
not after `now`, and otherwise returns a UTC-aware timestamp (offset `0`)
denoting the same instant as `t`. -/
theorem ensure_future_expiration_spec (now : Int) (t : PyDatetime) :
    (normInstant t ≤ now →
      ensure_future_expiration now t = .error invalidExpirationError ∧
      invalidExpirationError.code = "INVALID_EXPIRATION" ∧
      invalidExpirationError.status = 400) ∧
    (now < normInstant t →
      ensure_future_expiration now t = .ok { wall := normInstant t, off := some 0 }) ∧
    (t.off = none → normInstant t = t.wall) ∧
    (∀ o, t.off = some o → normInstant t = t.wall - o) := by
  refine ⟨fun h => ⟨?_, rfl, rfl⟩, fun h => ?_, fun h => ?_, fun o h => ?_⟩
  · cases ht : t.off with
    | none =>
      simp only [normInstant, ht] at h
      simp [ensure_future_expiration, ht, h]
    | some o =>
      simp only [normInstant, ht] at h
      simp [ensure_future_expiration, ht, h]
  · cases ht : t.off with
    | none =>
      simp only [normInstant, ht] at h
      simp [ensure_future_expiration, normInstant, ht, show ¬ t.wall ≤ now from by omega]
    | some o =>
      simp only [normInstant, ht] at h
      simp [ensure_future_expiration, normInstant, ht, show ¬ t.wall - o ≤ now from by omega]
  · simp [normInstant, h]
  · simp [normInstant, h]

/-- Witness for `ensure_future_expiration_spec`: at `now = 1000`, a naive
datetime at wall 500 is rejected and an aware one at instant 2000 is
normalized to UTC. -/
theorem ensure_future_expiration_spec_witness :
    ensure_future_expiration 1000 { wall := 500, off := none } =
      .error invalidExpirationError ∧
    ensure_future_expiration 1000 { wall := 5600, off := some 3600 } =
      .ok { wall := 2000, off := some 0 } :=
  ⟨((ensure_future_expiration_spec 1000 { wall := 500, off := none }).1 (by decide)).1,
   by
    have h := ((ensure_future_expiration_spec 1000
      { wall := 5600, off := some 3600 }).2).1 (by decide)
    simpa [normInstant] using h⟩

/-! ### Metadata label validation
(`_is_valid_label_key`, `_is_valid_label_value`, `ensure_metadata_labels`) -/

/-- Lowercase DNS alphanumerics `[a-z0-9]`. -/
def isDnsAlnum (c : Char) : Bool :=
  (97 ≤ c.toNat ∧ c.toNat ≤ 122) ∨ (48 ≤ c.toNat ∧ c.toNat ≤ 57)

/-- Characters allowed inside a DNS label: `[-a-z0-9]`. -/
def isDnsLabelChar (c : Char) : Bool := isDnsAlnum c ∨ c = '-'

/-- Full match of `DNS_LABEL_PATTERN = [a-z0-9]([-a-z0-9]*[a-z0-9])?`:
non-empty, every character in `[-a-z0-9]`, first and last alphanumeric. -/
def matchesDnsLabel (l : List Char) : Bool :=
  !l.isEmpty && l.all isDnsLabelChar &&
    (match l.head? with | some c => isDnsAlnum c | none => false) &&
    (match l.getLast? with | some c => isDnsAlnum c | none => false)

/-- Full match of `DNS_SUBDOMAIN_RE = ^(label\.)*label$`: the string is a
dot-separated non-empty sequence of DNS labels. -/
def matchesDnsSubdomain (l : List Char) : Bool :=
  (l.splitOn '.').all matchesDnsLabel

/-- Label-name alphanumerics `[A-Za-z0-9]`. -/
def isLabelAlnum (c : Char) : Bool :=
  (65 ≤ c.toNat ∧ c.toNat ≤ 90) ∨ (97 ≤ c.toNat ∧ c.toNat ≤ 122) ∨
    (48 ≤ c.toNat ∧ c.toNat ≤ 57)

/-- Characters allowed inside a label name: `[-A-Za-z0-9_.]`. -/
def isLabelNameChar (c : Char) : Bool :=
  isLabelAlnum c ∨ c = '-' ∨ c = '_' ∨ c = '.'

/-- Full match of `LABEL_NAME_RE = ^[A-Za-z0-9]([-A-Za-z0-9_.]*[A-Za-z0-9])?$`
as a pure regular language, ignoring the Python `$`-before-newline quirk. -/
def matchesLabelName (l : List Char) : Bool :=
  !l.isEmpty && l.all isLabelNameChar &&
    (match l.head? with | some c => isLabelAlnum c | none => false) &&
    (match l.getLast? with | some c => isLabelAlnum c | none => false)

/-- Full match of `LABEL_VALUE_RE`: empty or a label name. -/
def matchesLabelValue (l : List Char) : Bool :=
  l.isEmpty || matchesLabelName l

/-- Python `re.match` on a `^...$`-anchored pattern: `$` matches at the end
of the string or just before one newline at the end of the string. -/
def pyDollarMatch (full : List Char → Bool) (l : List Char) : Bool :=
  full l || (match l.getLast? with
             | some c => c == Char.ofNat 10 && full l.dropLast
             | none => false)

/-- The trailing name check shared by both branches of
`_is_valid_label_key`: `len(name) > 63 or not LABEL_NAME_RE.match(name)`
means the key is invalid. -/
def checkNamePart (name : List Char) : Bool :=
  if 63 < name.length then false else pyDollarMatch matchesLabelName name

/-- Embeds `_is_valid_label_key` (`key.split("/", 1)` becomes
`takeWhile` and the tail of `dropWhile` at the first slash). -/
def is_valid_label_key (key : List Char) : Bool :=
  if 253 < key.length ∨ ('/' ∈ key ∧ 253 < (key.takeWhile (· ≠ '/')).length) then false
  else if '/' ∈ key then
    let pfx := key.takeWhile (· ≠ '/')
    let name := (key.dropWhile (· ≠ '/')).tail
    if pfx.isEmpty ∨ name.isEmpty then false
    else if ¬ pyDollarMatch matchesDnsSubdomain pfx then false
    else checkNamePart name
  else checkNamePart key

/-- Embeds `_is_valid_label_value`. -/
def is_valid_label_value (value : List Char) : Bool :=
  if 63 < value.length then false else pyDollarMatch matchesLabelValue value

/-- A Python value that is either a string or something else, for the
isinstance check of `ensure_metadata_labels`. -/
inductive PyVal
  | str (s : String)
  | nonStr (tag : Nat)
deriving DecidableEq

/-- The error raised when a metadata key or value is not a string. -/
def metadataTypeError : PyError :=
  { status := 400, code := "INVALID_METADATA_LABEL",
    msg := "Metadata keys and values must be strings." }

/-- The error raised for a syntactically invalid metadata key. -/
def metadataKeyError : PyError :=
  { status := 400, code := "INVALID_METADATA_LABEL",
    msg := "Metadata key is not a valid Kubernetes label key." }

/-- The error raised for a syntactically invalid metadata value. -/
def metadataValueError : PyError :=
  { status := 400, code := "INVALID_METADATA_LABEL",
    msg := "Metadata value is not a valid Kubernetes label value." }

/-- The loop body of `ensure_metadata_labels` for one entry: the isinstance
check comes first, then the key syntax check, then the value syntax check. -/
def checkMetadataEntry (key value : PyVal) : Except PyError Unit :=
  match key, value with
  | .str k, .str v =>
    if ¬ is_valid_label_key k.data then .error metadataKeyError
    else if ¬ is_valid_label_value v.data then .error metadataValueError
    else .ok ()
  | _, _ => .error metadataTypeError

/-- The `for key, value in metadata.items()` loop. -/
def metadataLoop : List (PyVal × PyVal) → Except PyError Unit
  | [] => .ok ()
  | (k, v) :: rest =>
    match checkMetadataEntry k v with
    | .error e => .error e
    | .ok _ => metadataLoop rest

/-- Embeds `ensure_metadata_labels`; the dict becomes an ordered
association list, `None` stays `none`, and `if not metadata: return`
covers both `None` and the empty dict. -/
def ensure_metadata_labels : Option (List (PyVal × PyVal)) → Except PyError Unit
  | none => .ok ()
  | some m => if m.isEmpty then .ok () else metadataLoop m

/-- The label-key rule exactly as the claim states it (a second definition
following the spec words, for comparison with `is_valid_label_key`): split
on the first `/`; the prefix, when present, is a non-empty DNS subdomain
of at most 253 characters; the name part is at most 63 characters and
matches `[A-Za-z0-9]([-A-Za-z0-9_.]*[A-Za-z0-9])?`. -/
def specLabelKeyValid (key : List Char) : Bool :=
  if '/' ∈ key then
    let pfx := key.takeWhile (· ≠ '/')
    let name := (key.dropWhile (· ≠ '/')).tail
    !pfx.isEmpty && decide (pfx.length ≤ 253) && matchesDnsSubdomain pfx &&
      decide (name.length ≤ 63) && matchesLabelName name
  else decide (key.length ≤ 63) && matchesLabelName key

/-- C4 (code bug): the code diverges from the stated label rules in two
ways.  A key whose name part carries one trailing newline is accepted by
`ensure_metadata_labels` although it does not match the stated pattern
(Python `$` also matches before a final newline); and a key of total
length over 253 whose prefix and name each satisfy the stated limits is
rejected although the stated rule accepts it. -/
theorem metadata_label_rules_code_divergence :
    (ensure_metadata_labels
      (some [(PyVal.str (String.mk ['a', Char.ofNat 10]), PyVal.str "x")]) = .ok () ∧
     specLabelKeyValid ['a', Char.ofNat 10] = false) ∧
    (is_valid_label_key (List.replicate 250 'a' ++ '/' :: ['a', 'b', 'c']) = false ∧
     specLabelKeyValid (List.replicate 250 'a' ++ '/' :: ['a', 'b', 'c']) = true) := by
  refine ⟨⟨?_, ?_⟩, ?_, ?_⟩ <;> decide

/-- A non-string key or value makes the per-entry check fail with the
type error, before any label-syntax predicate is consulted. -/
theorem checkMetadataEntry_nonstr (k v : PyVal)
    (hk : (∀ s, k ≠ .str s) ∨ (∀ s, v ≠ .str s)) :
    checkMetadataEntry k v = .error metadataTypeError := by
  rcases hk with hk | hk
  · cases k with
    | str s => exact absurd rfl (hk s)
    | nonStr t => cases v <;> rfl
  · cases v with
    | str s => exact absurd rfl (hk s)
    | nonStr t => cases k <;> rfl

/-- Every error the per-entry check can produce carries the
`INVALID_METADATA_LABEL` code and HTTP status 400. -/
theorem checkMetadataEntry_error_code (k v : PyVal) (e : PyError)
    (h : checkMetadataEntry k v = .error e) :
    e.code = "INVALID_METADATA_LABEL" ∧ e.status = 400 := by
  cases k with
  | str ks =>
    cases v with
    | str vs =>
      simp only [checkMetadataEntry] at h
      split_ifs at h with h1 h2
      · simp only [Except.error.injEq] at h
        subst h
        exact ⟨rfl, rfl⟩
      · simp only [Except.error.injEq] at h
        subst h
        exact ⟨rfl, rfl⟩
    | nonStr t =>
      simp only [checkMetadataEntry, Except.error.injEq] at h
      subst h
      exact ⟨rfl, rfl⟩
  | nonStr t =>
    cases v <;>
      (simp only [checkMetadataEntry, Except.error.injEq] at h
       subst h
       exact ⟨rfl, rfl⟩)

/-- A mapping containing a non-string key or value makes the loop fail
with an `INVALID_METADATA_LABEL` / 400 error. -/
theorem metadataLoop_nonstr (m : List (PyVal × PyVal)) (k v : PyVal)
    (hm : (k, v) ∈ m)
    (hk : (∀ s, k ≠ .str s) ∨ (∀ s, v ≠ .str s)) :
    ∃ e, metadataLoop m = .error e ∧
      e.code = "INVALID_METADATA_LABEL" ∧ e.status = 400 := by
  induction m with
  | nil => cases hm
  | cons hd rest ih =>
    rcases List.mem_cons.mp hm with heq | hmem
    · refine ⟨metadataTypeError, ?_, rfl, rfl⟩
      rw [← heq]
      simp [metadataLoop, checkMetadataEntry_nonstr k v hk]
    · obtain ⟨e, he, hc, hs⟩ := ih hmem
      obtain ⟨kh, vh⟩ := hd
      cases hch : checkMetadataEntry kh vh with
      | error e2 =>
        obtain ⟨hc2, hs2⟩ := checkMetadataEntry_error_code kh vh e2 hch
        exact ⟨e2, by simp [metadataLoop, hch], hc2, hs2⟩
      | ok u =>
        cases u
        exact ⟨e, by simp [metadataLoop, hch, he], hc, hs⟩

/-- C10: `ensure_metadata_labels` accepts `None` and the empty mapping; any
mapping containing a non-string key or value raises
`INVALID_METADATA_LABEL` with HTTP 400; and for such an entry the
isinstance check fires before any label-syntax check, yielding the
type-error detail regardless of the entry content. -/
theorem ensure_metadata_labels_none_empty_nonstring (m : List (PyVal × PyVal))
    (k v : PyVal) :
    ensure_metadata_labels none = .ok () ∧
    ensure_metadata_labels (some []) = .ok () ∧
    ((k, v) ∈ m → ((∀ s, k ≠ .str s) ∨ (∀ s, v ≠ .str s)) →
      ∃ e, ensure_metadata_labels (some m) = .error e ∧
        e.code = "INVALID_METADATA_LABEL" ∧ e.status = 400) ∧
    (((∀ s, k ≠ .str s) ∨ (∀ s, v ≠ .str s)) →
      checkMetadataEntry k v = .error metadataTypeError) := by
  refine ⟨rfl, rfl, fun hm hk => ?_, fun hk => checkMetadataEntry_nonstr k v hk⟩
  have hne : ¬ m.isEmpty := by
    cases m with
    | nil => cases hm
    | cons hd rest => simp
  obtain ⟨e, he, hc, hs⟩ := metadataLoop_nonstr m k v hm hk
  refine ⟨e, ?_, hc, hs⟩
  cases m with
  | nil => cases hm
  | cons hd rest => simpa [ensure_metadata_labels] using he

/-- Witness for `ensure_metadata_labels_none_empty_nonstring` at the
single-entry mapping with a non-string key. -/
theorem ensure_metadata_labels_nonstring_witness :
    ∃ e, ensure_metadata_labels (some [(PyVal.nonStr 0, PyVal.str "x")]) = .error e ∧
      e.code = "INVALID_METADATA_LABEL" ∧ e.status = 400 :=
  ((ensure_metadata_labels_none_empty_nonstring
      [(PyVal.nonStr 0, PyVal.str "x")] (PyVal.nonStr 0) (PyVal.str "x")).2.2.1
    (by simp) (Or.inl fun s => by simp))

/-! ## Bind-IP resolution
(`SandboxService._resolve_bind_ip`, src/server/src/services/sandbox_service.py) -/

/-- Python `str.startswith`, on the character lists. -/
def strStartsWith (s pre : String) : Bool := pre.data.isPrefixOf s.data

/-- The two socket address families the resolver uses. -/
inductive AddrFamily
  | inet
  | inet6
deriving DecidableEq

/-- The network environment the resolver runs in: what a UDP `connect` to a
given `(host, port)` target reports as the socket local address (or an
`OSError`, modelled as `Except Unit`), and what
`getaddrinfo(gethostname(), None, family, SOCK_DGRAM)` yields per family
(the list of first addresses of each entry). -/
structure NetEnv where
  udpLocalAddr : AddrFamily → String × Nat → Except Unit String
  hostAddrs : AddrFamily → Except Unit (List String)

/-- The `getaddrinfo` fallback at the bottom of `_resolve_bind_ip`: the
first address when present and non-empty, else `::1` for IPv6 and
`127.0.0.1` for IPv4. -/
def resolveHostnameFallback (env : NetEnv) (family : AddrFamily) : String :=
  match env.hostAddrs family with
  | .ok (addr :: _) =>
    if addr ≠ "" then addr
    else if family = .inet6 then "::1" else "127.0.0.1"
  | _ => if family = .inet6 then "::1" else "127.0.0.1"

/-- The `family == AF_INET` run of `_resolve_bind_ip`: probe a UDP connect
to `8.8.8.8:80`; a non-empty local address is returned, otherwise fall
through to the hostname lookup. -/
def resolve_bind_ip_inet (env : NetEnv) : String :=
  match env.udpLocalAddr .inet ("8.8.8.8", 80) with
  | .ok ip => if ip ≠ "" then ip else resolveHostnameFallback env .inet
  | .error _ => resolveHostnameFallback env .inet

/-- Embeds `_resolve_bind_ip` (whose Python default family is `AF_INET`):
for `AF_INET6` the probe targets `2001:4860:4860::8888:80`, a non-empty
non-link-local local address is returned, an `OSError` recurses with
`AF_INET`, and an empty or `fe80…` address falls through to the
IPv6 hostname lookup. -/
def resolve_bind_ip (env : NetEnv) : AddrFamily → String
  | .inet => resolve_bind_ip_inet env
  | .inet6 =>
    match env.udpLocalAddr .inet6 ("2001:4860:4860::8888", 80) with
    | .ok ip =>
      if ip ≠ "" ∧ ¬ strStartsWith ip "fe80" then ip
      else resolveHostnameFallback env .inet6
    | .error _ => resolve_bind_ip_inet env

/-- C5: bind-IP resolution probes a UDP connect to IPv6
`2001:4860:4860::8888` port 80 first, falls back on an `OSError` to IPv4
`8.8.8.8` port 80, and returns the socket local address — never a
link-local `fe80…` address, which instead diverts to the `getaddrinfo`
hostname lookup whose first address is returned; the final fallbacks are
`::1` (IPv6) and `127.0.0.1` (IPv4), and the resolver always yields a
non-empty address string. -/
theorem resolve_bind_ip_spec (env : NetEnv) :
    (∀ ip, env.udpLocalAddr .inet6 ("2001:4860:4860::8888", 80) = .ok ip →
      ip ≠ "" → ¬ strStartsWith ip "fe80" → resolve_bind_ip env .inet6 = ip) ∧
    (∀ e, env.udpLocalAddr .inet6 ("2001:4860:4860::8888", 80) = .error e →
      resolve_bind_ip env .inet6 = resolve_bind_ip env .inet) ∧
    (∀ ip, env.udpLocalAddr .inet ("8.8.8.8", 80) = .ok ip → ip ≠ "" →
      resolve_bind_ip env .inet = ip) ∧
    (∀ ip, env.udpLocalAddr .inet6 ("2001:4860:4860::8888", 80) = .ok ip →
      strStartsWith ip "fe80" →
      resolve_bind_ip env .inet6 = resolveHostnameFallback env .inet6) ∧
    (∀ family addr rest, env.hostAddrs family = .ok (addr :: rest) → addr ≠ "" →
      resolveHostnameFallback env family = addr) ∧
    (∀ family, (env.hostAddrs family = .error () ∨ env.hostAddrs family = .ok []) →
      resolveHostnameFallback env family =
        (if family = .inet6 then "::1" else "127.0.0.1")) ∧
    (∀ family, resolve_bind_ip env family ≠ "") := by
  have hfb : ∀ family, resolveHostnameFallback env family ≠ "" := by
    intro family
    rw [resolveHostnameFallback]
    rcases h : env.hostAddrs family with e | l
    · cases family <;> simp
    · cases l with
      | nil => cases family <;> simp
      | cons addr rest =>
        by_cases ha : addr = ""
        · cases family <;> simp [ha]
        · simp [ha]
  refine ⟨fun ip h hne hll => ?_, fun e h => ?_, fun ip h hne => ?_,
    fun ip h hll => ?_, fun family addr rest h hne => ?_, fun family h => ?_,
    fun family => ?_⟩
  · simp [resolve_bind_ip, h, hne, hll]
  · simp [resolve_bind_ip, h]
  · simp [resolve_bind_ip, resolve_bind_ip_inet, h, hne]
  · simp [resolve_bind_ip, h, hll]
  · simp [resolveHostnameFallback, h, hne]
  · rcases h with h | h <;> simp [resolveHostnameFallback, h]
  · have hinet : resolve_bind_ip env .inet ≠ "" := by
      rw [resolve_bind_ip, resolve_bind_ip_inet]
      rcases h : env.udpLocalAddr .inet ("8.8.8.8", 80) with e | ip
      · simp only [h]
        exact hfb .inet
      · simp only [h]
        by_cases hne : ip = ""
        · rw [if_neg (by simp [hne])]
          exact hfb .inet
        · rw [if_pos hne]
          exact hne
    cases family with
    | inet => exact hinet
    | inet6 =>
      rw [resolve_bind_ip]
      rcases h : env.udpLocalAddr .inet6 ("2001:4860:4860::8888", 80) with e | ip
      · simp only [h]
        exact hinet
      · simp only [h]
        by_cases hc : ip ≠ "" ∧ ¬ strStartsWith ip "fe80"
        · rw [if_pos hc]
          exact hc.1
        · rw [if_neg hc]
          exact hfb .inet6

/-- A concrete environment for the witness: the IPv6 probe reports a
link-local address, the IPv4 probe a private address, and the hostname
lookup a public IPv6 address. -/
def sampleNetEnv : NetEnv :=
  { udpLocalAddr := fun f _ =>
      match f with
      | .inet6 => .ok "fe80::1"
      | .inet => .ok "10.0.0.5"
    hostAddrs := fun _ => .ok ["2001:db8::7"] }

/-- Witness for `resolve_bind_ip_spec`: the link-local probe result is
suppressed in favour of the hostname lookup, and the IPv4 probe result is
returned directly. -/
theorem resolve_bind_ip_spec_witness :
    resolve_bind_ip sampleNetEnv .inet6 = "2001:db8::7" ∧
    resolve_bind_ip sampleNetEnv .inet = "10.0.0.5" := by
  obtain ⟨h1, h2, h3, h4, h5, h6, h7⟩ := resolve_bind_ip_spec sampleNetEnv
  constructor
  · rw [h4 "fe80::1" rfl (by decide)]
    exact h5 .inet6 "2001:db8::7" [] rfl (by decide)
  · exact h3 "10.0.0.5" rfl (by decide)

/-! ## Request-ID middleware and logging filter
(src/server/src/middleware/request_id.py) -/

/-- The correlation header name. -/
def X_REQUEST_ID_HEADER : String := "X-Request-ID"

/-- Whitespace stripped by Python `str.strip()` (the ASCII portion; the
request IDs at play are ASCII). -/
def isPySpace (c : Char) : Bool :=
  c = ' ' ∨ c = Char.ofNat 9 ∨ c = Char.ofNat 10 ∨ c = Char.ofNat 13 ∨
    c = Char.ofNat 11 ∨ c = Char.ofNat 12

/-- Model of `str.strip()`: drop leading and trailing whitespace. -/
def pyStrip (s : String) : String :=
  String.mk (((s.data.dropWhile isPySpace).reverse.dropWhile isPySpace).reverse)

/-- A character of `uuid4().hex`: a lowercase hex digit. -/
def isLowerHexDigit (c : Char) : Bool :=
  (48 ≤ c.toNat ∧ c.toNat ≤ 57) ∨ (97 ≤ c.toNat ∧ c.toNat ≤ 102)

/-- Model of `uuid.uuid4().hex` for the 128-bit value `n`: 32 lowercase hex
digits, zero padded (the UUID version bits live inside `n` and are
irrelevant to the claims). -/
def uuidHex32 (n : Nat) : String :=
  String.mk ((List.range 32).map (fun i => hexDigit (n / 16 ^ (31 - i) % 16)))

/-- Model of `(raw and raw.strip()) or uuid.uuid4().hex`: `None` and the
empty string are falsy, as is a whitespace-only header after `strip`. -/
def computeRequestId (raw : Option String) (freshHex : String) : String :=
  match raw with
  | none => freshHex
  | some r => if r = "" then freshHex else if pyStrip r = "" then freshHex else pyStrip r

/-- Replace-or-add a response header. -/
def setHeader (hs : List (String × String)) (name value : String) :
    List (String × String) :=
  (name, value) :: hs.filter (fun p => p.1 ≠ name)

/-- Read a header. -/
def getHeader (hs : List (String × String)) (name : String) : Option String :=
  (hs.find? (fun p => p.1 == name)).map Prod.snd

/-- Model of `RequestIdMiddleware.dispatch`: compute the request ID from
the `X-Request-ID` header (or the fresh UUID hex for the 128-bit value
`n`), store it in the context for the request, and echo it on the
response.  Returns (request ID held in the context during the request,
response headers). -/
def dispatch (rawHeader : Option String) (n : Nat)
    (respHeaders : List (String × String)) : String × List (String × String) :=
  let request_id := computeRequestId rawHeader (uuidHex32 n)
  (request_id, setHeader respHeaders X_REQUEST_ID_HEADER request_id)

/-- Model of `RequestIdFilter.filter`: the `request_id` attribute set on a
log record is the context value when truthy, and `-` otherwise. -/
def requestIdFilter (ctx : Option String) : String :=
  match ctx with
  | none => "-"
  | some rid => if rid = "" then "-" else rid

theorem hexDigit_lower {k : Nat} (h : k < 16) : isLowerHexDigit (hexDigit k) := by
  interval_cases k <;> decide

/-- C6: the request ID equals the `X-Request-ID` header trimmed when that
header is present and non-blank, and otherwise is a fresh 32-character
lowercase-hex UUID4; the response echoes it under `X-Request-ID`; the ID is
never empty; and the logging filter attaches the context value, or `-`
when no request context is set. -/
theorem request_id_middleware_spec (raw : Option String) (n : Nat)
    (respHeaders : List (String × String)) (ctx : Option String) :
    (∀ r, raw = some r → pyStrip r ≠ "" → (dispatch raw n respHeaders).1 = pyStrip r) ∧
    ((raw = none ∨ raw = some "" ∨ (∃ r, raw = some r ∧ pyStrip r = "")) →
      (dispatch raw n respHeaders).1 = uuidHex32 n) ∧
    (uuidHex32 n).length = 32 ∧
    (∀ c ∈ (uuidHex32 n).data, isLowerHexDigit c) ∧
    getHeader (dispatch raw n respHeaders).2 X_REQUEST_ID_HEADER =
      some (dispatch raw n respHeaders).1 ∧
    (dispatch raw n respHeaders).1 ≠ "" ∧
    (ctx = none → requestIdFilter ctx = "-") ∧
    (∀ s, ctx = some s → s ≠ "" → requestIdFilter ctx = s) := by
  have hlen : (uuidHex32 n).length = 32 := by
    simp [uuidHex32, String.length]
  have hfresh : uuidHex32 n ≠ "" := by
    intro h
    rw [show ("" : String) = String.mk [] from rfl] at h
    have := congrArg String.length h
    rw [hlen] at this
    simp [String.length] at this
  refine ⟨fun r hr hne => ?_, fun h => ?_, hlen, fun c hc => ?_, ?_, ?_,
    fun h => by simp [requestIdFilter, h], fun s hs hne => by simp [requestIdFilter, hs, hne]⟩
  · subst hr
    by_cases hre : r = ""
    · subst hre
      simp [pyStrip] at hne
    · simp [dispatch, computeRequestId, hre, hne]
  · rcases h with h | h | ⟨r, hr, hstrip⟩
    · simp [dispatch, computeRequestId, h]
    · simp [dispatch, computeRequestId, h]
    · subst hr
      by_cases hre : r = ""
      · simp [dispatch, computeRequestId, hre]
      · simp [dispatch, computeRequestId, hre, hstrip]
  · simp only [uuidHex32] at hc
    obtain ⟨i, hi, hrfl⟩ := List.mem_map.mp hc
    rw [← hrfl]
    exact hexDigit_lower (Nat.mod_lt _ (by omega))
  · simp [dispatch, getHeader, setHeader]
  · rcases raw with _ | r
    · exact hfresh
    · by_cases hre : r = ""
      · simpa [dispatch, computeRequestId, hre] using hfresh
      · by_cases hstrip : pyStrip r = ""
        · simpa [dispatch, computeRequestId, hre, hstrip] using hfresh
        · simp [dispatch, computeRequestId, hre, hstrip]

/-- Witness for `request_id_middleware_spec`: a padded header is trimmed
and echoed; an absent header yields the fresh hex. -/
theorem request_id_middleware_spec_witness :
    (dispatch (some "  abc123  ") 7 []).1 = pyStrip "  abc123  " ∧
    (dispatch none 7 []).1 = uuidHex32 7 ∧
    requestIdFilter none = "-" :=
  ⟨((request_id_middleware_spec (some "  abc123  ") 7 [] none).1 "  abc123  " rfl
      (by decide)),
   ((request_id_middleware_spec none 7 [] none).2.1 (Or.inl rfl)),
   ((request_id_middleware_spec none 7 [] none).2.2.2.2.2.2.1 rfl)⟩

/-! ## Volume serialization round trip
(src/sdks/sandbox/python/src/opensandbox/api/lifecycle/models/volume.py) -/

/-- The `Unset` sentinel of the generated client: a field is either unset
or holds a value. -/
inductive UnsetOr (α : Type)
  | unset
  | val (a : α)
deriving DecidableEq

/-- Values stored in a generated `to_dict` dictionary. -/
inductive DictVal
  | str (s : String)
  | bool (b : Bool)
  | dict (fields : List (String × DictVal))

/-- Lookup in a `to_dict` dictionary. -/
def dlookup (k : String) : List (String × DictVal) → Option DictVal
  | [] => none
  | (k2, v) :: rest => if k2 = k then some v else dlookup k rest

/-- Modelled from the spec: the `Host` backend model (host-path bind mount)
of the generated client is not under src/; it carries the host path, with
`to_dict` / `from_dict` in the same generated style as `Volume`. -/
structure Host where
  path : String
deriving DecidableEq

/-- Serialization of a `Host`. -/
def Host.to_dict (h : Host) : List (String × DictVal) := [("path", .str h.path)]

/-- Deserialization of a `Host`. -/
def Host.from_dict (d : List (String × DictVal)) : Option Host :=
  match dlookup "path" d with
  | some (.str p) => some { path := p }
  | _ => none

/-- Modelled from the spec: the `PVC` backend model (PersistentVolumeClaim
reference) of the generated client is not under src/. -/
structure PVC where
  claim_name : String
deriving DecidableEq

/-- Serialization of a `PVC`. -/
def PVC.to_dict (p : PVC) : List (String × DictVal) := [("claimName", .str p.claim_name)]

/-- Deserialization of a `PVC`. -/
def PVC.from_dict (d : List (String × DictVal)) : Option PVC :=
  match dlookup "claimName" d with
  | some (.str c) => some { claim_name := c }
  | _ => none

/-- Embeds the `Volume` attrs model: required name and mount path, the
rest either set or the UNSET sentinel. -/
structure Volume where
  name : String
  mount_path : String
  host : UnsetOr Host
  pvc : UnsetOr PVC
  read_only : UnsetOr Bool
  sub_path : UnsetOr String
deriving DecidableEq

/-- Embeds `Volume.to_dict`: name and mountPath always, each optional field
only when it is not UNSET, in source order. -/
def Volume.to_dict (v : Volume) : List (String × DictVal) :=
  [("name", .str v.name), ("mountPath", .str v.mount_path)] ++
  (match v.host with | .unset => [] | .val h => [("host", .dict h.to_dict)]) ++
  (match v.pvc with | .unset => [] | .val p => [("pvc", .dict p.to_dict)]) ++
  (match v.read_only with | .unset => [] | .val b => [("readOnly", .bool b)]) ++
  (match v.sub_path with | .unset => [] | .val s => [("subPath", .str s)])

/-- Embeds `Volume.from_dict`: `d.pop(key)` becomes a lookup, a missing
optional key becomes UNSET, and a present `host`/`pvc` entry goes through
the backend `from_dict`.  A `KeyError` or a value of unexpected dynamic
type yields `none` (the Python code is untyped at this point; only the
shapes produced by `to_dict` occur in the round trip). -/
def Volume.from_dict (d : List (String × DictVal)) : Option Volume := do
  let name ← match dlookup "name" d with | some (.str s) => some s | _ => none
  let mount_path ← match dlookup "mountPath" d with | some (.str s) => some s | _ => none
  let host ← match dlookup "host" d with
    | none => some UnsetOr.unset
    | some (.dict hd) => (Host.from_dict hd).map UnsetOr.val
    | some _ => none
  let pvc ← match dlookup "pvc" d with
    | none => some UnsetOr.unset
    | some (.dict pd) => (PVC.from_dict pd).map UnsetOr.val
    | some _ => none
  let read_only ← match dlookup "readOnly" d with
    | none => some UnsetOr.unset
    | some (.bool b) => some (UnsetOr.val b)
    | some _ => none
  let sub_path ← match dlookup "subPath" d with
    | none => some UnsetOr.unset
    | some (.str s) => some (UnsetOr.val s)
    | some _ => none
  some { name := name, mount_path := mount_path, host := host, pvc := pvc,
         read_only := read_only, sub_path := sub_path }

/-- C7: `Volume.from_dict (v.to_dict)` recovers `v` exactly — every UNSET
field stays UNSET and every set field keeps its value. -/
theorem volume_to_dict_from_dict_roundtrip (v : Volume) :
    Volume.from_dict (Volume.to_dict v) = some v := by
  obtain ⟨nm, mp, h, p, r, sp⟩ := v
  cases h <;> cases p <;> cases r <;> cases sp <;>
    simp [Volume.to_dict, Volume.from_dict, dlookup, Host.to_dict, Host.from_dict,
      PVC.to_dict, PVC.from_dict]

/-! ## Command status conversion
(src/sdks/sandbox/python/src/opensandbox/adapters/converter/command_model_converter.py) -/

/-- Embeds `_unwrap_optional`: the Unset sentinel becomes `None`, any other
value is preserved unchanged. -/
def unwrap_optional {α : Type} : UnsetOr α → Option α
  | .unset => none
  | .val a => some a

/-- Modelled from the spec: the generated wire DTO `CommandStatusResponse`
is not under src/; each of its seven fields is either a concrete value or
the Unset sentinel. -/
structure CommandStatusResponse where
  id : UnsetOr String
  content : UnsetOr String
  running : UnsetOr Bool
  exit_code : UnsetOr Int
  error : UnsetOr String
  started_at : UnsetOr Int
  finished_at : UnsetOr Int

/-- Modelled from the spec: the SDK domain object `CommandStatus` carries
the same seven fields, each independently optional. -/
structure CommandStatus where
  id : Option String
  content : Option String
  running : Option Bool
  exit_code : Option Int
  error : Option String
  started_at : Option Int
  finished_at : Option Int
deriving DecidableEq

/-- Embeds `to_command_status`. -/
def to_command_status (raw : CommandStatusResponse) : CommandStatus :=
  { id := unwrap_optional raw.id
    content := unwrap_optional raw.content
    running := unwrap_optional raw.running
    exit_code := unwrap_optional raw.exit_code
    error := unwrap_optional raw.error
    started_at := unwrap_optional raw.started_at
    finished_at := unwrap_optional raw.finished_at }

/-- C9: `to_command_status` maps the seven fields independently — a field
holding the Unset sentinel becomes `none` and any other field value is
preserved unchanged. -/
theorem to_command_status_fieldwise (raw : CommandStatusResponse) :
    (raw.id = .unset → (to_command_status raw).id = none) ∧
    (∀ x, raw.id = .val x → (to_command_status raw).id = some x) ∧
    (raw.content = .unset → (to_command_status raw).content = none) ∧
    (∀ x, raw.content = .val x → (to_command_status raw).content = some x) ∧
    (raw.running = .unset → (to_command_status raw).running = none) ∧
    (∀ x, raw.running = .val x → (to_command_status raw).running = some x) ∧
    (raw.exit_code = .unset → (to_command_status raw).exit_code = none) ∧
    (∀ x, raw.exit_code = .val x → (to_command_status raw).exit_code = some x) ∧
    (raw.error = .unset → (to_command_status raw).error = none) ∧
    (∀ x, raw.error = .val x → (to_command_status raw).error = some x) ∧
    (raw.started_at = .unset → (to_command_status raw).started_at = none) ∧
    (∀ x, raw.started_at = .val x → (to_command_status raw).started_at = some x) ∧
    (raw.finished_at = .unset → (to_command_status raw).finished_at = none) ∧
    (∀ x, raw.finished_at = .val x → (to_command_status raw).finished_at = some x) := by
  refine ⟨?_, ?_, ?_, ?_, ?_, ?_, ?_, ?_, ?_, ?_, ?_, ?_, ?_, ?_⟩ <;>
    intros <;> simp [to_command_status, unwrap_optional, *]

/-- Witness for `to_command_status_fieldwise` on a mixed response. -/
theorem to_command_status_fieldwise_witness :
    (to_command_status
      { id := .val "cmd-1", content := .unset, running := .val true,
        exit_code := .unset, error := .unset, started_at := .val 5,
        finished_at := .unset }).id = some "cmd-1" ∧
    (to_command_status
      { id := .val "cmd-1", content := .unset, running := .val true,
        exit_code := .unset, error := .unset, started_at := .val 5,
        finished_at := .unset }).content = none :=
  ⟨((to_command_status_fieldwise
      { id := .val "cmd-1", content := .unset, running := .val true,
        exit_code := .unset, error := .unset, started_at := .val 5,
        finished_at := .unset }).2.1 "cmd-1" rfl),
   ((to_command_status_fieldwise
      { id := .val "cmd-1", content := .unset, running := .val true,
        exit_code := .unset, error := .unset, started_at := .val 5,
        finished_at := .unset }).2.2.1 rfl)⟩

end OpenSandbox
